import Mathlib

/-!
# Verification of `pdfcleaner.py`

A shallow embedding of the core logic of `src/pdfcleaner.py`:

* `parse_page_ranges` — the page-range parser (lines 21–33);
* `create_redacted_page` — the placeholder-page builder (lines 35–57);
* the per-page delete/replace loop of `delete_or_replace_pages`
  (lines 81–92), together with its output-path derivation (line 95)
  and the error-handling control flow of the whole function and `main`
  (lines 59–114).

Strings are modelled as `List Char`; Python `int` values as `ℤ`;
Python `set` values as `Finset ℤ`; page-geometry coordinates as `ℚ`
(the code performs no rounding, only reads and halves box dimensions).
-/

namespace PdfCleaner

/-- Python `str.split(sep)` for a one-character separator `sep`:
splits at every occurrence of `sep`; in particular `"".split(sep) = [""]`
and adjacent separators produce empty pieces. -/
def pySplit (sep : Char) : List Char → List (List Char)
  | [] => [[]]
  | c :: rest =>
    match pySplit sep rest with
    | [] => [[]]
    | t :: ts => if c = sep then [] :: t :: ts else (c :: t) :: ts

/-- The whitespace characters stripped by Python `int(str)` (ASCII subset). -/
def isPySpace (c : Char) : Bool :=
  c == ' ' || c == '\t' || c == '\n' || c == '\r' || c == Char.ofNat 11 || c == Char.ofNat 12

/-- Value of an ASCII decimal digit, if `c` is one. -/
def digitVal? (c : Char) : Option Nat :=
  if '0' ≤ c ∧ c ≤ '9' then some (c.toNat - '0'.toNat) else none

/-- Digits of a Python integer literal after the first: decimal digits with
single underscores allowed between digits (as accepted by `int(str)`). -/
def pyDigitsAux (acc : Nat) : List Char → Option Nat
  | [] => some acc
  | '_' :: c :: rest =>
    match digitVal? c with
    | none => none
    | some d => pyDigitsAux (acc * 10 + d) rest
  | c :: rest =>
    match digitVal? c with
    | none => none
    | some d => pyDigitsAux (acc * 10 + d) rest

/-- A nonempty run of decimal digits (underscore separators allowed
between digits), as accepted by Python `int(str)` after sign and
whitespace handling. -/
def pyDigits? : List Char → Option Nat
  | [] => none
  | c :: rest =>
    match digitVal? c with
    | none => none
    | some d => pyDigitsAux d rest

/-- Strip leading and trailing whitespace, as `int(str)` does. -/
def pyStrip (s : List Char) : List Char :=
  ((s.dropWhile isPySpace).reverse.dropWhile isPySpace).reverse

/-- Python `int(s)` for a decimal string: optional surrounding whitespace,
optional sign, then a nonempty digit run; `none` when `int` would raise
`ValueError: invalid literal for int() with base 10`. -/
def pyInt? (s : List Char) : Option Int :=
  match pyStrip s with
  | '+' :: rest => (pyDigits? rest).map (fun n => (n : Int))
  | '-' :: rest => (pyDigits? rest).map (fun n => -(n : Int))
  | rest => (pyDigits? rest).map (fun n => (n : Int))

/-- The `ValueError`s `parse_page_ranges` can raise, carrying exactly the
data their Python messages carry: `int()` failures embed the offending
literal in the message; tuple-unpacking failures mention only the arity. -/
inductive PyError where
  | invalidIntLiteral (lit : List Char)
  | unpackTooMany
  | unpackTooFew (got : Nat)
deriving DecidableEq

deriving instance DecidableEq for Except

/-- The text `parse_page_ranges` errors carry that identifies the failing
input, when any: an `invalid literal for int()` message quotes the literal;
an unpacking error names no input at all. -/
def errorLiteral : PyError → Option (List Char)
  | .invalidIntLiteral lit => some lit
  | .unpackTooMany => none
  | .unpackTooFew _ => none

/-- Embedding of `int(s)` as a fallible computation. -/
def pyIntE (s : List Char) : Except PyError Int :=
  match pyInt? s with
  | some n => .ok n
  | none => .error (.invalidIntLiteral s)

/-- Model of `start, end = map(int, part.split('-'))` (line 28): unpacking the lazy
`map` evaluates `int` on the pieces in order; with three or more pieces
Python computes the first three and then raises the too-many-values
`ValueError`; with one piece it raises the not-enough-values error after
converting it. -/
def parseRangeToken (part : List Char) : Except PyError (Int × Int) :=
  match pySplit '-' part with
  | [a, b] => do
      let x ← pyIntE a
      let y ← pyIntE b
      .ok (x, y)
  | [a] => do
      let _ ← pyIntE a
      .error (.unpackTooFew 1)
  | [] => .error (.unpackTooFew 0)
  | a :: b :: c :: _ => do
      let _ ← pyIntE a
      let _ ← pyIntE b
      let _ ← pyIntE c
      .error .unpackTooMany

/-- The set of zero-based indices one comma-separated token contributes
(lines 27–31): a token containing `'-'` is unpacked as a range and
contributes `range(start-1, end)`, i.e. the integers from `start-1` to
`end-1`; any other token `p` contributes `{int(p) - 1}`. -/
def tokenPages (part : List Char) : Except PyError (Finset Int) :=
  if '-' ∈ part then do
    let se ← parseRangeToken part
    .ok (Finset.Icc (se.1 - 1) (se.2 - 1))
  else do
    let n ← pyIntE part
    .ok {n - 1}

/-- The `for part in ranges` loop of `parse_page_ranges`, accumulating
`pages_to_delete`; the first `ValueError` aborts the whole call. -/
def foldTokens : Finset Int → List (List Char) → Except PyError (Finset Int)
  | acc, [] => .ok acc
  | acc, t :: ts =>
    match tokenPages t with
    | .error e => .error e
    | .ok ps => foldTokens (acc ∪ ps) ts

/-- Ascending enumeration of a finite set of integers by repeated
minimum extraction, with explicit fuel so that it evaluates by kernel
reduction. With fuel `s.card` it lists exactly the elements of `s`
in strictly increasing order (`ascListFuel_spec`). -/
def ascListFuel : Nat → Finset Int → List Int
  | 0, _ => []
  | fuel + 1, s =>
    if h : s.Nonempty then s.min' h :: ascListFuel fuel (s.erase (s.min' h))
    else []

/-- Python `sorted(set_of_ints)`: the ascending enumeration of the set. -/
def pySorted (s : Finset Int) : List Int :=
  ascListFuel s.card s

/-- Function `parse_page_ranges` (lines 21–33): split the spec on commas, accumulate
each token's pages into the set `pages_to_delete`, and return
`sorted(pages_to_delete)`. -/
def parse_page_ranges (page_range_str : List Char) : Except PyError (List Int) :=
  match foldTokens ∅ (pySplit ',' page_range_str) with
  | .error e => .error e
  | .ok pages_to_delete => .ok (pySorted pages_to_delete)

/-- A page bounding box. The code reads only the `.width` and `.height` of a
page's mediabox `RectangleObject` (lines 41–42), so a box is modelled by
those two dimensions, as exact rationals (no rounding occurs). -/
structure MediaBox where
  width : ℚ
  height : ℚ
deriving DecidableEq

/-- The single-page document built by `create_redacted_page` (lines 35–57),
recorded as the reportlab canvas calls that produce it: the canvas
`pagesize`, the `setFont` arguments, and the `drawCentredString` calls
(x-coordinate of the centre, y-coordinate, text). -/
structure RenderedPage where
  pagesize : MediaBox
  fontName : String
  fontSize : ℚ
  centredStrings : List (ℚ × ℚ × String)
deriving DecidableEq

/-- Function `create_redacted_page` (lines 35–57): a canvas sized to the given
mediabox's width and height, font Helvetica 40, and the text `"Redacted"`
drawn centred at `(width / 2, height / 2)`. -/
def create_redacted_page (media_box : MediaBox) : RenderedPage :=
  { pagesize := { width := media_box.width, height := media_box.height }
    fontName := "Helvetica"
    fontSize := 40
    centredStrings := [(media_box.width / 2, media_box.height / 2, "Redacted")] }

/-- A page appended to the `PdfWriter`: either an original page of the
source document (line 92) or a page produced by `create_redacted_page`
(line 88). -/
inductive OutPage (P : Type) where
  | orig (p : P)
  | rendered (r : RenderedPage)
deriving DecidableEq

/-- The `for i in range(num_pages)` loop of `delete_or_replace_pages`
(lines 81–92), with the loop index made explicit: page `i` is skipped when
`i ∈ pages_to_delete` in delete mode, replaced by
`create_redacted_page` of its own mediabox in redact mode, and appended
unchanged otherwise. -/
def processPages {P : Type} (mediabox : P → MediaBox) (pages_to_delete : List Int)
    (replace_with_redacted : Bool) : Nat → List P → List (OutPage P)
  | _, [] => []
  | i, page :: rest =>
    (if (i : Int) ∈ pages_to_delete then
      (if replace_with_redacted then
        [OutPage.rendered (create_redacted_page (mediabox page))]
      else [])
    else [OutPage.orig page]) ++
      processPages mediabox pages_to_delete replace_with_redacted (i + 1) rest

/-- The writer's contents after the loop of lines 81–92: all source pages
processed starting from index 0. -/
def writerPages {P : Type} (mediabox : P → MediaBox) (pages : List P)
    (pages_to_delete : List Int) (replace_with_redacted : Bool) : List (OutPage P) :=
  processPages mediabox pages_to_delete replace_with_redacted 0 pages

/-- Index of the last occurrence of `c` in `l`, if any (Python `str.rfind`,
restricted to found-or-absent). -/
def lastIdxOf (c : Char) : List Char → Option Nat
  | [] => none
  | ch :: rest =>
    match lastIdxOf c rest with
    | some i => some (i + 1)
    | none => if ch = c then some 0 else none

/-- Whether `os.path.splitext` actually splits at the last dot `dotIndex`:
the dot must lie after the last `'/'`, and some character of the final path
component strictly before it must not itself be a dot (so dotfiles such as
`".bashrc"` keep their whole name as the root). -/
def extSplitCond (p : List Char) (dotIndex : Nat) : Bool :=
  (match lastIdxOf '/' p with
   | none => true
   | some sepIndex => decide (sepIndex < dotIndex)) &&
  ((List.range dotIndex).drop
      (match lastIdxOf '/' p with
       | none => 0
       | some sepIndex => sepIndex + 1)).any
    (fun k => p.getD k '.' != '.')

/-- Function `os.path.splitext` (posix semantics, as used on line 95): split off the
extension at the last `'.'` of the final path component when
`extSplitCond` holds there, else return the whole path as the root. -/
def os_path_splitext (p : List Char) : List Char × List Char :=
  match lastIdxOf '.' p with
  | none => (p, [])
  | some dotIndex =>
    if extSplitCond p dotIndex then (p.take dotIndex, p.drop dotIndex)
    else (p, [])

/-- Line 95: `output_file = os.path.splitext(input_file)[0] + ".redacted.pdf"`. -/
def output_file (input_file : List Char) : List Char :=
  (os_path_splitext input_file).1 ++ (".redacted.pdf").toList

/-- The error messages printed just before an early `return` of
`delete_or_replace_pages` (lines 63 and 74); the interpolated file name and
exception text are elided. -/
inductive PrintedMsg where
  | fileNotFound
  | errorReadingPdf
deriving DecidableEq

/-- The observable outcome of one call of `delete_or_replace_pages` as driven
by `main`: an exception escaped uncaught, or the function printed an error
message and returned early with nothing written, or the writer's pages were
written to the derived output path. -/
inductive RunResult (P : Type) where
  | uncaughtException (e : PyError)
  | printedErrorAndReturned (msg : PrintedMsg)
  | success (written : List (OutPage P)) (path : List Char)
deriving DecidableEq

/-- Control flow of `delete_or_replace_pages` (lines 59–101) over an abstract
filesystem / PDF-library state: `fileExists` is the `os.path.exists` answer
for the input path, and `readPages` the pages `PdfReader` yields (`none`
models `PdfReader` raising). A missing file (lines 62–64) or a reader
failure (lines 71–75) prints a message and returns early; a `ValueError`
raised by `parse_page_ranges` (line 67) propagates out uncaught; otherwise
the page loop runs and the writer's pages are written to
`output_file input_file` (lines 94–99). -/
def delete_or_replace_pages {P : Type} (mediabox : P → MediaBox)
    (fileExists : Bool) (readPages : Option (List P))
    (input_file page_range_str : List Char) (replace_with_redacted : Bool) :
    RunResult P :=
  if fileExists = false then .printedErrorAndReturned .fileNotFound
  else
    match parse_page_ranges page_range_str with
    | .error e => .uncaughtException e
    | .ok pages_to_delete =>
      match readPages with
      | none => .printedErrorAndReturned .errorReadingPdf
      | some pages =>
        .success (writerPages mediabox pages pages_to_delete replace_with_redacted)
          (output_file input_file)

/-- Process exit status of a run of `main` (lines 103–117): the script sets
no exit status itself, so the interpreter exits 0 whenever
`delete_or_replace_pages` returns — even after a printed error — and 1
exactly when an exception escapes uncaught. -/
def exitCode {P : Type} : RunResult P → Nat
  | .uncaughtException _ => 1
  | .printedErrorAndReturned _ => 0
  | .success _ _ => 0

/-- Whether a run wrote an output document. -/
def outputProduced {P : Type} : RunResult P → Bool
  | .success _ _ => true
  | _ => false

/-- A minimal concrete page type used to instantiate the transformer
theorems on explicit inputs. -/
structure DemoPage where
  box : MediaBox
  tag : Nat
deriving DecidableEq

/-- A malformed comma-token, in the spec's sense: either a hyphen-free
token that is not a valid integer, or a token containing a hyphen whose
split does not give two valid integer bounds (in particular any token with
more than one hyphen). -/
def badToken (t : List Char) : Prop :=
  ('-' ∉ t ∧ pyInt? t = none) ∨
  ('-' ∈ t ∧ ∀ a b, pySplit '-' t = [a, b] → (pyInt? a = none ∨ pyInt? b = none))

/-! ## Lemmas about the parser -/

lemma ascListFuel_spec :
    ∀ (fuel : Nat) (s : Finset Int), s.card ≤ fuel →
      (∀ x : Int, x ∈ ascListFuel fuel s ↔ x ∈ s) ∧
        (ascListFuel fuel s).Sorted (· < ·) := by
  intro fuel
  induction fuel with
  | zero =>
    intro s hs
    have hempty : s = ∅ := Finset.card_eq_zero.mp (Nat.le_zero.mp hs)
    subst hempty
    simp [ascListFuel]
  | succ n ih =>
    intro s hs
    by_cases h : s.Nonempty
    · have hmem := Finset.min'_mem s h
      have hcard : (s.erase (s.min' h)).card ≤ n := by
        rw [Finset.card_erase_of_mem hmem]; omega
      obtain ⟨ihmem, ihsort⟩ := ih _ hcard
      constructor
      · intro x
        simp only [ascListFuel, dif_pos h, List.mem_cons, ihmem, Finset.mem_erase]
        constructor
        · rintro (rfl | ⟨-, hx⟩)
          · exact hmem
          · exact hx
        · intro hx
          by_cases hx' : x = s.min' h
          · exact Or.inl hx'
          · exact Or.inr ⟨hx', hx⟩
      · simp only [ascListFuel, dif_pos h]
        rw [List.sorted_cons]
        refine ⟨?_, ihsort⟩
        intro b hb
        have hb' : b ∈ s.erase (s.min' h) := (ihmem b).mp hb
        rcases Finset.mem_erase.mp hb' with ⟨hne, hbs⟩
        exact lt_of_le_of_ne (Finset.min'_le s b hbs) (Ne.symm hne)
    · simp [ascListFuel, dif_neg h]
      intro x
      simp [Finset.not_nonempty_iff_eq_empty.mp h]

lemma pySorted_mem (s : Finset Int) (x : Int) : x ∈ pySorted s ↔ x ∈ s :=
  (ascListFuel_spec s.card s le_rfl).1 x

lemma pySorted_sorted_lt (s : Finset Int) : (pySorted s).Sorted (· < ·) :=
  (ascListFuel_spec s.card s le_rfl).2

lemma pySorted_sorted_le (s : Finset Int) : (pySorted s).Sorted (· ≤ ·) :=
  List.Pairwise.imp le_of_lt (pySorted_sorted_lt s)

lemma pySorted_nodup (s : Finset Int) : (pySorted s).Nodup :=
  (pySorted_sorted_lt s).nodup

lemma bind_ok_eq {α β : Type} (a : α) (f : α → Except PyError β) :
    (Except.ok a >>= f : Except PyError β) = f a := rfl

lemma bind_error_eq {α β : Type} (e : PyError) (f : α → Except PyError β) :
    (Except.error e >>= f : Except PyError β) = Except.error e := rfl

lemma pyIntE_ok {s : List Char} {n : Int} : pyIntE s = .ok n ↔ pyInt? s = some n := by
  unfold pyIntE
  cases h : pyInt? s <;> simp

lemma parseRangeToken_ok {t : List Char} {st en : Int}
    (h : parseRangeToken t = .ok (st, en)) :
    ∃ a b, pySplit '-' t = [a, b] ∧ pyInt? a = some st ∧ pyInt? b = some en := by
  unfold parseRangeToken at h
  cases hsp : pySplit '-' t with
  | nil => rw [hsp] at h; cases h
  | cons a as =>
    cases as with
    | nil =>
      rw [hsp] at h
      cases ha : pyIntE a <;> simp [ha, bind_ok_eq, bind_error_eq] at h
    | cons b bs =>
      cases bs with
      | nil =>
        rw [hsp] at h
        cases ha : pyIntE a with
        | error e => simp [ha, bind_ok_eq, bind_error_eq] at h
        | ok x =>
          cases hb : pyIntE b with
          | error e => simp [ha, hb, bind_ok_eq, bind_error_eq] at h
          | ok y =>
            simp only [ha, hb, bind_ok_eq] at h
            injection h with h'
            injection h' with h1 h2
            subst h1; subst h2
            exact ⟨a, b, rfl, pyIntE_ok.mp ha, pyIntE_ok.mp hb⟩
      | cons c cs =>
        rw [hsp] at h
        cases ha : pyIntE a <;> cases hb : pyIntE b <;> cases hc : pyIntE c <;>
          simp [ha, hb, hc, bind_ok_eq, bind_error_eq] at h

lemma tokenPages_range {t a b : List Char} {st en : Int}
    (hm : '-' ∈ t) (hsp : pySplit '-' t = [a, b])
    (ha : pyInt? a = some st) (hb : pyInt? b = some en) :
    tokenPages t = .ok (Finset.Icc (st - 1) (en - 1)) := by
  unfold tokenPages parseRangeToken
  rw [if_pos hm, hsp]
  simp [pyIntE, ha, hb, bind_ok_eq]

lemma tokenPages_single {t : List Char} {n : Int}
    (hm : '-' ∉ t) (h : pyInt? t = some n) :
    tokenPages t = .ok {n - 1} := by
  unfold tokenPages
  rw [if_neg hm]
  simp [pyIntE, h, bind_ok_eq]

lemma tokenPages_ok_cases {t : List Char} {ps : Finset Int} (h : tokenPages t = .ok ps) :
    ('-' ∈ t ∧ ∃ a b st en, pySplit '-' t = [a, b] ∧ pyInt? a = some st ∧
      pyInt? b = some en ∧ ps = Finset.Icc (st - 1) (en - 1)) ∨
    ('-' ∉ t ∧ ∃ n, pyInt? t = some n ∧ ps = {n - 1}) := by
  unfold tokenPages at h
  by_cases hm : '-' ∈ t
  · rw [if_pos hm] at h
    cases hr : parseRangeToken t with
    | error e => simp [hr, bind_error_eq] at h
    | ok se =>
      obtain ⟨st, en⟩ := se
      obtain ⟨a, b, hsp, ha, hb⟩ := parseRangeToken_ok hr
      simp only [hr, bind_ok_eq] at h
      injection h with h'
      exact Or.inl ⟨hm, a, b, st, en, hsp, ha, hb, h'.symm⟩
  · rw [if_neg hm] at h
    cases hn : pyIntE t with
    | error e => simp [hn, bind_error_eq] at h
    | ok n =>
      simp only [hn, bind_ok_eq] at h
      injection h with h'
      exact Or.inr ⟨hm, n, pyIntE_ok.mp hn, h'.symm⟩

lemma foldTokens_ok_mem :
    ∀ (ts : List (List Char)) (acc out : Finset Int), foldTokens acc ts = .ok out →
      ∀ x : Int, x ∈ out ↔ x ∈ acc ∨ ∃ t ∈ ts, ∃ ps, tokenPages t = .ok ps ∧ x ∈ ps := by
  intro ts
  induction ts with
  | nil =>
    intro acc out h x
    simp only [foldTokens] at h
    injection h with h'
    subst h'
    simp
  | cons t ts ih =>
    intro acc out h x
    simp only [foldTokens] at h
    cases htok : tokenPages t with
    | error e => rw [htok] at h; cases h
    | ok ps =>
      rw [htok] at h
      rw [ih _ _ h x, Finset.mem_union]
      constructor
      · rintro ((hacc | hps) | ⟨t', ht', ps', hok', hx'⟩)
        · exact Or.inl hacc
        · exact Or.inr ⟨t, List.mem_cons_self t ts, ps, htok, hps⟩
        · exact Or.inr ⟨t', List.mem_cons_of_mem t ht', ps', hok', hx'⟩
      · rintro (hacc | ⟨t', ht', ps', hok', hx'⟩)
        · exact Or.inl (Or.inl hacc)
        · rcases List.mem_cons.mp ht' with rfl | ht''
          · rw [htok] at hok'
            injection hok' with he
            subst he
            exact Or.inl (Or.inr hx')
          · exact Or.inr ⟨t', ht'', ps', hok', hx'⟩

lemma foldTokens_error :
    ∀ (ts : List (List Char)) (t : List Char), t ∈ ts →
      (∃ e, tokenPages t = .error e) →
      ∀ acc, ∃ e', foldTokens acc ts = .error e' := by
  intro ts
  induction ts with
  | nil => intro t ht; cases ht
  | cons t' ts ih =>
    rintro t ht ⟨e, he⟩ acc
    simp only [foldTokens]
    cases htok : tokenPages t' with
    | error e' => exact ⟨e', rfl⟩
    | ok ps =>
      rcases List.mem_cons.mp ht with rfl | ht'
      · rw [htok] at he; cases he
      · exact ih t ht' ⟨e, he⟩ _

lemma parse_page_ranges_ok {s : List Char} {l : List Int}
    (h : parse_page_ranges s = .ok l) :
    ∃ out, foldTokens ∅ (pySplit ',' s) = .ok out ∧ l = pySorted out := by
  unfold parse_page_ranges at h
  cases hf : foldTokens ∅ (pySplit ',' s) with
  | error e => rw [hf] at h; cases h
  | ok out =>
    rw [hf] at h
    injection h with h'
    exact ⟨out, rfl, h'.symm⟩

lemma pySplit_no_sep {sep : Char} : ∀ {l : List Char}, sep ∉ l → pySplit sep l = [l] := by
  intro l
  induction l with
  | nil => intro _; rfl
  | cons c rest ih =>
    intro h
    have hc : ¬c = sep := fun hc => h (hc ▸ List.mem_cons_self c rest)
    have hrest : sep ∉ rest := fun hr => h (List.mem_cons_of_mem c hr)
    simp only [pySplit, ih hrest, if_neg hc]

lemma pySplit_append_single {a b : List Char} (ha : '-' ∉ a) (hb : '-' ∉ b) :
    pySplit '-' (a ++ '-' :: b) = [a, b] := by
  induction a with
  | nil =>
    simp [pySplit, pySplit_no_sep hb]
  | cons c rest ih =>
    have hc : ¬c = '-' := fun hc => ha (hc ▸ List.mem_cons_self c rest)
    have hrest : '-' ∉ rest := fun hr => ha (List.mem_cons_of_mem c hr)
    have hih : pySplit '-' (rest ++ '-' :: b) = [rest, b] := ih hrest
    simp [pySplit, hc, hih]

lemma tokenPages_error_of_bad {t : List Char} (h : badToken t) :
    ∃ e, tokenPages t = .error e := by
  rcases h with ⟨hm, hn⟩ | ⟨hm, hr⟩
  · refine ⟨.invalidIntLiteral t, ?_⟩
    unfold tokenPages
    rw [if_neg hm]
    simp [pyIntE, hn, bind_error_eq]
  · unfold tokenPages
    rw [if_pos hm]
    cases he : parseRangeToken t with
    | error e => exact ⟨e, by simp [bind_error_eq]⟩
    | ok se =>
      obtain ⟨st, en⟩ := se
      obtain ⟨a, b, hsp, hia, hib⟩ := parseRangeToken_ok he
      rcases hr a b hsp with hbad | hbad
      · rw [hia] at hbad; cases hbad
      · rw [hib] at hbad; cases hbad

/-! ## Lemmas about the page loop -/

/-- The original source pages that survive into the writer, in writer order. -/
def keptPages {P : Type} : List (OutPage P) → List P
  | [] => []
  | OutPage.orig p :: rest => p :: keptPages rest
  | OutPage.rendered _ :: rest => keptPages rest

lemma processPages_delete_eq {P : Type} (mb : P → MediaBox) (S : List Int) :
    ∀ (pages : List P) (i : Nat),
      processPages mb S false i pages =
        ((pages.enumFrom i).filter (fun e => !decide ((e.1 : Int) ∈ S))).map
          (fun e => OutPage.orig e.2) := by
  intro pages
  induction pages with
  | nil => intro i; rfl
  | cons p rest ih =>
    intro i
    simp only [processPages, List.enumFrom, List.filter_cons, ih (i + 1)]
    by_cases h : (i : Int) ∈ S <;> simp [h]

lemma processPages_redact_eq {P : Type} (mb : P → MediaBox) (S : List Int) :
    ∀ (pages : List P) (i : Nat),
      processPages mb S true i pages =
        (pages.enumFrom i).map (fun e =>
          if (e.1 : Int) ∈ S then OutPage.rendered (create_redacted_page (mb e.2))
          else OutPage.orig e.2) := by
  intro pages
  induction pages with
  | nil => intro i; rfl
  | cons p rest ih =>
    intro i
    simp only [processPages, List.enumFrom, List.map_cons, ih (i + 1)]
    by_cases h : (i : Int) ∈ S <;> simp [h]

lemma keptPages_processPages {P : Type} (mb : P → MediaBox) (S : List Int) (mode : Bool) :
    ∀ (pages : List P) (i : Nat),
      keptPages (processPages mb S mode i pages) =
        ((pages.enumFrom i).filter (fun e => !decide ((e.1 : Int) ∈ S))).map Prod.snd := by
  intro pages
  induction pages with
  | nil => intro i; rfl
  | cons p rest ih =>
    intro i
    simp only [processPages, List.enumFrom, List.filter_cons]
    by_cases h : (i : Int) ∈ S
    · cases mode <;> simp [h, keptPages, ih (i + 1)]
    · simp [h, keptPages, ih (i + 1)]

lemma length_filter_not_add {α : Type} (p : α → Bool) (l : List α) :
    (l.filter (fun a => !p a)).length + (l.filter p).length = l.length := by
  induction l with
  | nil => rfl
  | cons a l ih =>
    by_cases h : p a <;> simp [List.filter_cons, h] <;> omega

lemma countP_enumFrom_eq_length {P : Type} (pages : List P) (S : List Int)
    (hnd : S.Nodup) (hs : ∀ x ∈ S, 0 ≤ x ∧ x < (pages.length : Int)) :
    ((pages.enumFrom 0).filter (fun e => decide ((e.1 : Int) ∈ S))).length = S.length := by
  have h1 : ((pages.enumFrom 0).filter (fun e => decide ((e.1 : Int) ∈ S))).length
      = ((List.range pages.length).filter (fun k : Nat => decide ((k : Int) ∈ S))).length := by
    rw [← List.countP_eq_length_filter, ← List.countP_eq_length_filter,
      List.range_eq_range', ← List.enumFrom_map_fst 0 pages, List.countP_map]
    rfl
  rw [h1]
  have hFnd : ((List.range pages.length).filter
      (fun k : Nat => decide ((k : Int) ∈ S))).Nodup :=
    (List.nodup_range pages.length).filter _
  have hmapnd : (((List.range pages.length).filter
      (fun k : Nat => decide ((k : Int) ∈ S))).map (fun k : Nat => (k : Int))).Nodup :=
    hFnd.map Nat.cast_injective
  have hperm : (((List.range pages.length).filter
      (fun k : Nat => decide ((k : Int) ∈ S))).map (fun k : Nat => (k : Int))).Perm S := by
    apply List.perm_of_nodup_nodup_toFinset_eq hmapnd hnd
    ext x
    simp only [List.mem_toFinset, List.mem_map, List.mem_filter, List.mem_range,
      decide_eq_true_eq]
    constructor
    · rintro ⟨k, ⟨hk, hmem⟩, rfl⟩
      exact hmem
    · intro hx
      obtain ⟨h0, hlt⟩ := hs x hx
      refine ⟨x.toNat, ⟨?_, ?_⟩, Int.toNat_of_nonneg h0⟩
      · omega
      · rw [Int.toNat_of_nonneg h0]; exact hx
  have hlen := hperm.length_eq
  rw [List.length_map] at hlen
  exact hlen

/-! ## Lemmas about the output path -/

lemma lastIdxOf_eq_none {c : Char} : ∀ {l : List Char}, lastIdxOf c l = none → c ∉ l := by
  intro l
  induction l with
  | nil => intro _ h; cases h
  | cons ch rest ih =>
    intro h
    simp only [lastIdxOf] at h
    cases hr : lastIdxOf c rest with
    | some k => rw [hr] at h; cases h
    | none =>
      rw [hr] at h
      by_cases hc : ch = c
      · rw [if_pos hc] at h; cases h
      · rw [if_neg hc] at h
        simp only [List.mem_cons]
        rintro (rfl | hmem)
        · exact hc rfl
        · exact ih hr hmem

lemma lastIdxOf_spec {c : Char} : ∀ {l : List Char} {i : Nat}, lastIdxOf c l = some i →
    i < l.length ∧ l[i]? = some c ∧ ∀ j, i < j → l[j]? ≠ some c := by
  intro l
  induction l with
  | nil => intro i h; cases h
  | cons ch rest ih =>
    intro i h
    simp only [lastIdxOf] at h
    cases hr : lastIdxOf c rest with
    | some k =>
      rw [hr] at h
      injection h with h'
      subst h'
      obtain ⟨hlt, hget, hmax⟩ := ih hr
      refine ⟨by simpa using Nat.succ_lt_succ hlt, by simpa using hget, ?_⟩
      intro j hj
      cases j with
      | zero => omega
      | succ j' => simpa using hmax j' (by omega)
    | none =>
      rw [hr] at h
      by_cases hc : ch = c
      · rw [if_pos hc] at h
        injection h with h'
        subst h'
        refine ⟨by simp, by simpa using hc, ?_⟩
        intro j hj
        cases j with
        | zero => omega
        | succ j' =>
          simp only [List.getElem?_cons_succ]
          intro hcon
          exact lastIdxOf_eq_none hr (by
            have : j' < rest.length := by
              by_contra hge
              rw [List.getElem?_eq_none (by omega)] at hcon
              cases hcon
            rw [List.getElem?_eq_getElem this] at hcon
            injection hcon with hc'
            exact hc' ▸ List.getElem_mem this)
      · rw [if_neg hc] at h; cases h

lemma os_path_splitext_cases (p : List Char) :
    os_path_splitext p = (p, []) ∨
    ∃ dotIndex, lastIdxOf '.' p = some dotIndex ∧
      os_path_splitext p = (p.take dotIndex, p.drop dotIndex) := by
  rcases hdot : lastIdxOf '.' p with _ | dotIndex
  · left
    unfold os_path_splitext
    rw [hdot]
  · by_cases hc : extSplitCond p dotIndex
    · right
      refine ⟨dotIndex, rfl, ?_⟩
      unfold os_path_splitext
      rw [hdot]
      simp [hc]
    · left
      unfold os_path_splitext
      rw [hdot]
      simp [hc]

example : parse_page_ranges ("3".toList) = .ok [2] := by decide
example : parse_page_ranges ("1-3".toList) = .ok [0, 1, 2] := by decide
example : parse_page_ranges ("2,4-6,9".toList) = .ok [1, 3, 4, 5, 8] := by decide
example : parse_page_ranges ("2,1-3".toList) = .ok [0, 1, 2] := by decide
example : parse_page_ranges ("".toList) = .error (.invalidIntLiteral []) := by decide
example : parse_page_ranges ("0".toList) = .ok [-1] := by decide
example : parse_page_ranges ("-1".toList) = .error (.invalidIntLiteral []) := by decide
example : parse_page_ranges ("5-3".toList) = .ok [] := by decide
example : parse_page_ranges ("1-2-3".toList) = .error .unpackTooMany := by decide

example :
    writerPages DemoPage.box [⟨⟨1, 2⟩, 0⟩, ⟨⟨3, 4⟩, 1⟩, ⟨⟨5, 6⟩, 2⟩] [1] false =
      [.orig ⟨⟨1, 2⟩, 0⟩, .orig ⟨⟨5, 6⟩, 2⟩] := by decide

example :
    writerPages DemoPage.box [⟨⟨1, 2⟩, 0⟩, ⟨⟨3, 4⟩, 1⟩] [1] true =
      [.orig ⟨⟨1, 2⟩, 0⟩, .rendered (create_redacted_page ⟨3, 4⟩)] := rfl

example : output_file ("doc.pdf".toList) = "doc.redacted.pdf".toList := by decide
example : output_file ("a/b.c/notes".toList) = "a/b.c/notes.redacted.pdf".toList := by decide
example : output_file (".bashrc".toList) = ".bashrc.redacted.pdf".toList := by decide
example : output_file ("x.redacted.pdf".toList) = "x.redacted.redacted.pdf".toList := by decide

/-! ## The claims -/

/-- Claim C1: for every well-formed page-range spec — one on which
`parse_page_ranges` returns a result — the result is the ascending,
duplicate-free enumeration of the union of the tokens' contributions, where
a hyphen token `start-end` contributes exactly the indices
`start-1, …, end-1` and a single token `p` exactly `{p-1}`; in particular
`parse("3") = [2]`, `parse("1-3") = [0,1,2]`,
`parse("2,4-6,9") = [1,3,4,5,8]`, and `parse("2,1-3")` has exactly the
3 elements `[0,1,2]`. -/
theorem parse_page_ranges_spec :
    (∀ (s : List Char) (l : List Int), parse_page_ranges s = .ok l →
      l.Sorted (· ≤ ·) ∧ l.Nodup ∧
      ∀ x : Int, x ∈ l ↔ ∃ t ∈ pySplit ',' s,
        ('-' ∈ t ∧ ∃ a b st en, pySplit '-' t = [a, b] ∧ pyInt? a = some st ∧
          pyInt? b = some en ∧ st - 1 ≤ x ∧ x ≤ en - 1) ∨
        ('-' ∉ t ∧ pyInt? t = some (x + 1))) ∧
    parse_page_ranges ("3".toList) = .ok [2] ∧
    parse_page_ranges ("1-3".toList) = .ok [0, 1, 2] ∧
    parse_page_ranges ("2,4-6,9".toList) = .ok [1, 3, 4, 5, 8] ∧
    parse_page_ranges ("2,1-3".toList) = .ok [0, 1, 2] := by
  refine ⟨?_, by decide, by decide, by decide, by decide⟩
  intro s l h
  obtain ⟨out, hfold, rfl⟩ := parse_page_ranges_ok h
  refine ⟨pySorted_sorted_le out, pySorted_nodup out, ?_⟩
  intro x
  rw [pySorted_mem, foldTokens_ok_mem _ _ _ hfold x]
  simp only [Finset.not_mem_empty, false_or]
  constructor
  · rintro ⟨t, ht, ps, hok, hx⟩
    refine ⟨t, ht, ?_⟩
    rcases tokenPages_ok_cases hok with ⟨hm, a, b, st, en, hsp, ha, hb, rfl⟩ | ⟨hm, n, hn, rfl⟩
    · left
      have hbounds := Finset.mem_Icc.mp hx
      exact ⟨hm, a, b, st, en, hsp, ha, hb, hbounds.1, hbounds.2⟩
    · right
      have hxn : x = n - 1 := by simpa using hx
      refine ⟨hm, ?_⟩
      rw [hn]
      congr 1
      omega
  · rintro ⟨t, ht, ⟨hm, a, b, st, en, hsp, ha, hb, h1, h2⟩ | ⟨hm, hn⟩⟩
    · exact ⟨t, ht, _, tokenPages_range hm hsp ha hb, Finset.mem_Icc.mpr ⟨h1, h2⟩⟩
    · refine ⟨t, ht, _, tokenPages_single hm hn, ?_⟩
      simp only [Finset.mem_singleton]
      omega

/-- Evaluation of `parse_page_ranges_spec` at the spec `"2,4-6,9"` and
its result `[1,3,4,5,8]`. -/
theorem parse_page_ranges_spec_witness :
    ([1, 3, 4, 5, 8] : List Int).Sorted (· ≤ ·) ∧
      ([1, 3, 4, 5, 8] : List Int).Nodup ∧
      ∀ x : Int, x ∈ ([1, 3, 4, 5, 8] : List Int) ↔
        ∃ t ∈ pySplit ',' ("2,4-6,9".toList),
          ('-' ∈ t ∧ ∃ a b st en, pySplit '-' t = [a, b] ∧ pyInt? a = some st ∧
            pyInt? b = some en ∧ st - 1 ≤ x ∧ x ≤ en - 1) ∨
          ('-' ∉ t ∧ pyInt? t = some (x + 1)) :=
  parse_page_ranges_spec.1 ("2,4-6,9".toList) [1, 3, 4, 5, 8] (by decide)

/-- Claim C5 counterexample: the malformed range token `"1-2-3"` does make
`parse_page_ranges` fail, but with the bare too-many-values unpacking
`ValueError`, which carries no text identifying the offending token. -/
theorem format_error_counterexample :
    parse_page_ranges ("1-2-3".toList) = .error .unpackTooMany ∧
    errorLiteral .unpackTooMany = none :=
  ⟨by decide, rfl⟩

/-- Claim C5 (amended): for every spec string containing a token that is not
a valid integer, or a range token with malformed bounds, `parse_page_ranges`
fails with a `ValueError` rather than returning a result; an invalid
integer literal's error names the offending text, but a range token with
more than one hyphen fails with an unpacking error that identifies no
token (see `format_error_counterexample`). -/
theorem format_error_behavior :
    (∀ (s : List Char) (t : List Char), t ∈ pySplit ',' s → badToken t →
      ∃ e, parse_page_ranges s = .error e) ∧
    parse_page_ranges ("abc".toList) = .error (.invalidIntLiteral ("abc".toList)) ∧
    errorLiteral (.invalidIntLiteral ("abc".toList)) = some ("abc".toList) := by
  refine ⟨?_, by decide, rfl⟩
  intro s t ht hbad
  obtain ⟨e', hf⟩ := foldTokens_error _ t ht (tokenPages_error_of_bad hbad) ∅
  refine ⟨e', ?_⟩
  unfold parse_page_ranges
  rw [hf]

/-- Evaluation of `format_error_behavior` at the one-token spec `"x"`. -/
theorem format_error_behavior_witness :
    ∃ e, parse_page_ranges ("x".toList) = .error e :=
  format_error_behavior.1 ("x".toList) ("x".toList) (by decide)
    (Or.inl ⟨by decide, by decide⟩)

/-- Claim C6: parsing the empty spec string deterministically fails —
`"".split(',')` is `[""]` and `int("")` raises the invalid-literal
`ValueError` — so `parse_page_ranges` never returns any result (empty or
otherwise) for `""`, and being a pure function it always fails the same
way. -/
theorem parse_empty_spec :
    parse_page_ranges ("".toList) = .error (.invalidIntLiteral []) := by decide

/-- Claim C7 counterexample: the token `"-1"` — input page number −1 — is
not accepted without error: its leading hyphen makes the token a range, the
split yields an empty bound, and `int("")` raises, so the call errors
instead of silently producing an index. -/
theorem negative_token_counterexample :
    parse_page_ranges ("-1".toList) = .error (.invalidIntLiteral []) := by decide

/-- Claim C7 (amended): an input page number 0 is accepted without error
and silently contributes the invalid index −1 — in general, whenever a
hyphen-free token converts to 0 and the whole parse succeeds, −1 is in the
result, and concretely `parse("0") = [-1]` — but a negative single page
number such as `"-1"` is not accepted: its hyphen makes it parse as a
malformed range and the call fails
(see `negative_token_counterexample`). -/
theorem nonpositive_page_behavior :
    (∀ (s t : List Char) (l : List Int), t ∈ pySplit ',' s → '-' ∉ t →
      pyInt? t = some 0 → parse_page_ranges s = .ok l → (-1 : Int) ∈ l) ∧
    parse_page_ranges ("0".toList) = .ok [-1] := by
  refine ⟨?_, by decide⟩
  intro s t l ht hm h0 hok
  obtain ⟨out, hfold, rfl⟩ := parse_page_ranges_ok hok
  rw [pySorted_mem]
  refine (foldTokens_ok_mem _ _ _ hfold (-1)).mpr
    (Or.inr ⟨t, ht, {(0 : Int) - 1}, tokenPages_single hm h0, ?_⟩)
  decide

/-- Evaluation of `nonpositive_page_behavior` at the spec `"0"`. -/
theorem nonpositive_page_behavior_witness : (-1 : Int) ∈ ([-1] : List Int) :=
  nonpositive_page_behavior.1 ("0".toList) ("0".toList) [-1]
    (by decide) (by decide) (by decide) (by decide)

/-- Claim C10: a range token whose two bounds are valid integers with
`start > end` raises no error and contributes no page indices at all —
`range(start-1, end)` is empty — so in particular
`parse("5-3") = []`. -/
theorem descending_range_empty :
    (∀ (a b : List Char) (st en : Int), '-' ∉ a → '-' ∉ b →
      pyInt? a = some st → pyInt? b = some en → en < st →
      tokenPages (a ++ '-' :: b) = .ok ∅) ∧
    parse_page_ranges ("5-3".toList) = .ok [] := by
  refine ⟨?_, by decide⟩
  intro a b st en ha hb hia hib hlt
  have hm : '-' ∈ a ++ '-' :: b := by simp
  rw [tokenPages_range hm (pySplit_append_single ha hb) hia hib]
  congr 1
  apply Finset.Icc_eq_empty
  omega

/-- Evaluation of `descending_range_empty` at the token `"5-3"`. -/
theorem descending_range_empty_witness :
    tokenPages ("5".toList ++ '-' :: "3".toList) = .ok ∅ :=
  descending_range_empty.1 ("5".toList) ("3".toList) 5 3
    (by decide) (by decide) (by decide) (by decide) (by decide)

/-- Claim C2: in delete mode, when the removal set is duplicate-free and
every element lies in `[0, len(D))`, the output has exactly
`len(D) - |S|` pages; and an index `≥ len(D)` is silently ignored — the
loop is a total function visiting only indices `0 … len(D)-1`, so it never
errors — in particular removing `{1000}` from a document of fewer than
1000 pages leaves every page in the output unchanged. -/
theorem delete_mode_spec {P : Type} (mb : P → MediaBox) (pages : List P) (S : List Int) :
    (S.Nodup → (∀ x ∈ S, 0 ≤ x ∧ x < (pages.length : Int)) →
      (writerPages mb pages S false).length = pages.length - S.length) ∧
    ((pages.length : Int) < 1000 →
      writerPages mb pages [1000] false = pages.map OutPage.orig) := by
  constructor
  · intro hnd hs
    rw [writerPages, processPages_delete_eq, List.length_map]
    have hadd := length_filter_not_add
      (fun e : Nat × P => decide ((e.1 : Int) ∈ S)) (pages.enumFrom 0)
    have hcount := countP_enumFrom_eq_length pages S hnd hs
    have hlen : (pages.enumFrom 0).length = pages.length := List.enumFrom_length
    omega
  · intro hlt
    rw [writerPages, processPages_delete_eq]
    have hall : (pages.enumFrom 0).filter
        (fun e => !decide ((e.1 : Int) ∈ ([1000] : List Int))) = pages.enumFrom 0 := by
      rw [List.filter_eq_self]
      rintro ⟨i, x⟩ he
      obtain ⟨-, hi, -⟩ := List.mem_enumFrom he
      simp only [List.mem_singleton, Bool.not_eq_eq_eq_not, Bool.not_true,
        decide_eq_false_iff_not]
      omega
    rw [hall, show (fun e : Nat × P => OutPage.orig e.2) =
      (OutPage.orig ∘ Prod.snd) from rfl, ← List.map_map, List.enumFrom_map_snd]

/-- Evaluation of `delete_mode_spec` on a three-page document with
`S = [0, 2]` and with the out-of-range set `[1000]`. -/
theorem delete_mode_spec_witness :
    (writerPages DemoPage.box [⟨⟨1, 2⟩, 0⟩, ⟨⟨3, 4⟩, 1⟩, ⟨⟨5, 6⟩, 2⟩] [0, 2] false).length =
      ([⟨⟨1, 2⟩, 0⟩, ⟨⟨3, 4⟩, 1⟩, ⟨⟨5, 6⟩, 2⟩] : List DemoPage).length -
        ([0, 2] : List Int).length ∧
    writerPages DemoPage.box [⟨⟨1, 2⟩, 0⟩, ⟨⟨3, 4⟩, 1⟩, ⟨⟨5, 6⟩, 2⟩] [1000] false =
      ([⟨⟨1, 2⟩, 0⟩, ⟨⟨3, 4⟩, 1⟩, ⟨⟨5, 6⟩, 2⟩] : List DemoPage).map OutPage.orig :=
  ⟨(delete_mode_spec DemoPage.box _ [0, 2]).1 (by decide) (by decide),
   (delete_mode_spec DemoPage.box [⟨⟨1, 2⟩, 0⟩, ⟨⟨3, 4⟩, 1⟩, ⟨⟨5, 6⟩, 2⟩] [1000]).2
     (by decide)⟩

/-- Claim C3: in redact mode the output always has exactly `len(D)` pages
and every position not in the removal set carries the original page of the
same position unmodified; and in both modes the kept original pages appear
in source order — they are exactly the source pages at the non-removed
indices, enumerated in order. -/
theorem redact_mode_frame {P : Type} (mb : P → MediaBox) (pages : List P) (S : List Int) :
    (writerPages mb pages S true).length = pages.length ∧
    (∀ (i : Nat) (h : i < pages.length), (i : Int) ∉ S →
      (writerPages mb pages S true)[i]? = some (.orig pages[i])) ∧
    (∀ mode : Bool, keptPages (writerPages mb pages S mode) =
      ((pages.enumFrom 0).filter (fun e => !decide ((e.1 : Int) ∈ S))).map Prod.snd) := by
  refine ⟨?_, ?_, ?_⟩
  · rw [writerPages, processPages_redact_eq, List.length_map, List.enumFrom_length]
  · intro i h hnot
    rw [writerPages, processPages_redact_eq, List.getElem?_map, List.getElem?_enumFrom,
      List.getElem?_eq_getElem h]
    simp [hnot]
  · intro mode
    rw [writerPages, keptPages_processPages]

/-- Evaluation of `redact_mode_frame` on a two-page document with `S = [1]`
at the untouched position 0. -/
theorem redact_mode_frame_witness :
    (writerPages DemoPage.box [⟨⟨1, 2⟩, 0⟩, ⟨⟨3, 4⟩, 1⟩] [1] true)[0]? =
      some (.orig ⟨⟨1, 2⟩, 0⟩) :=
  (redact_mode_frame DemoPage.box [⟨⟨1, 2⟩, 0⟩, ⟨⟨3, 4⟩, 1⟩] [1]).2.1 0
    (by decide) (by decide)

/-- Claim C4: in redact mode every redacted position `i` of the output holds
the page built by `create_redacted_page` from page `i`'s own mediabox; that
page's bounding box equals the original page's mediabox exactly — width and
height taken from that very page, no scaling — and its only content is the
fixed label `"Redacted"` drawn centred at the middle of that box. -/
theorem redacted_page_geometry {P : Type} (mb : P → MediaBox) (pages : List P)
    (S : List Int) (i : Nat) (h : i < pages.length) (hmem : (i : Int) ∈ S) :
    (writerPages mb pages S true)[i]? =
      some (.rendered (create_redacted_page (mb pages[i]))) ∧
    (create_redacted_page (mb pages[i])).pagesize = mb pages[i] ∧
    (create_redacted_page (mb pages[i])).centredStrings =
      [((mb pages[i]).width / 2, (mb pages[i]).height / 2, "Redacted")] := by
  refine ⟨?_, rfl, rfl⟩
  rw [writerPages, processPages_redact_eq, List.getElem?_map, List.getElem?_enumFrom,
    List.getElem?_eq_getElem h]
  simp [hmem]

/-- Evaluation of `redacted_page_geometry` on a two-page document with
differing page sizes, at the redacted position 1. -/
theorem redacted_page_geometry_witness :
    (writerPages DemoPage.box [⟨⟨1, 2⟩, 0⟩, ⟨⟨3, 4⟩, 1⟩] [1] true)[1]? =
      some (.rendered (create_redacted_page ⟨3, 4⟩)) ∧
    (create_redacted_page (⟨3, 4⟩ : MediaBox)).pagesize = (⟨3, 4⟩ : MediaBox) ∧
    (create_redacted_page (⟨3, 4⟩ : MediaBox)).centredStrings =
      [((3 : ℚ) / 2, (4 : ℚ) / 2, "Redacted")] :=
  redacted_page_geometry DemoPage.box [⟨⟨1, 2⟩, 0⟩, ⟨⟨3, 4⟩, 1⟩] [1] 1
    (by decide) (by decide)

/-- Claim C8: the output path is derived deterministically from the input
path by replacing its file extension with the suffix `".redacted.pdf"`
(line 95), and the output path never equals the input path, so the input
file is never overwritten. -/
theorem output_path_spec :
    (∀ p : List Char, output_file p = (os_path_splitext p).1 ++ (".redacted.pdf").toList) ∧
    (∀ p : List Char, output_file p ≠ p) := by
  refine ⟨fun p => rfl, ?_⟩
  intro p heq
  rcases os_path_splitext_cases p with hsp | ⟨dotIndex, hdot, hsp⟩
  · rw [output_file, hsp] at heq
    have hlen := congrArg List.length heq
    simp at hlen
  · rw [output_file, hsp] at heq
    have h2 : (".redacted.pdf").toList = p.drop dotIndex :=
      List.append_cancel_left (heq.trans (List.take_append_drop dotIndex p).symm)
    obtain ⟨hlt, hget, hmax⟩ := lastIdxOf_spec hdot
    have h9 : (p.drop dotIndex)[9]? = some '.' := by rw [← h2]; decide
    rw [List.getElem?_drop] at h9
    exact hmax (dotIndex + 9) (by omega) h9

/-- Evaluation of `output_path_spec` at the path `"doc.pdf"`. -/
theorem output_path_spec_witness :
    output_file ("doc.pdf".toList) =
      (os_path_splitext ("doc.pdf".toList)).1 ++ (".redacted.pdf").toList ∧
    output_file ("doc.pdf".toList) ≠ "doc.pdf".toList :=
  ⟨output_path_spec.1 ("doc.pdf".toList), output_path_spec.2 ("doc.pdf".toList)⟩

/-- Claim C9 counterexample: at the concrete failing input where the PDF
reader raises (`readPages = none`, file present, page spec `"1"`), the run
prints its message and returns normally, and the process exit status is 0 —
not the non-zero status the claim requires — while indeed writing no
output. -/
theorem read_error_exit_code_counterexample :
    exitCode (delete_or_replace_pages (fun b : MediaBox => b) true none
      ("input.pdf".toList) ("1".toList) false) = 0 ∧
    outputProduced (delete_or_replace_pages (fun b : MediaBox => b) true none
      ("input.pdf".toList) ("1".toList) false) = false := by
  constructor <;> decide

/-- Claim C9 (amended): when the input document is missing or cannot be
opened, `delete_or_replace_pages` prints an error message and returns
early, and no output file is produced; but the exception is caught inside
the function rather than surfaced to `main`, and the process exits with
status 0 even on these failures (a non-zero status occurs only when an
exception — e.g. a page-range `ValueError` — escapes uncaught). -/
theorem read_error_behavior {P : Type} (mb : P → MediaBox)
    (input_file page_range_str : List Char) (replace : Bool) :
    (∀ l, parse_page_ranges page_range_str = .ok l →
      delete_or_replace_pages mb true none input_file page_range_str replace =
        .printedErrorAndReturned .errorReadingPdf ∧
      exitCode (delete_or_replace_pages mb true none input_file page_range_str replace) = 0 ∧
      outputProduced (delete_or_replace_pages mb true none input_file page_range_str replace)
        = false) ∧
    (∀ readPages : Option (List P),
      delete_or_replace_pages mb false readPages input_file page_range_str replace =
        .printedErrorAndReturned .fileNotFound ∧
      exitCode (delete_or_replace_pages mb false readPages input_file page_range_str replace)
        = 0 ∧
      outputProduced (delete_or_replace_pages mb false readPages input_file page_range_str
        replace) = false) := by
  constructor
  · intro l hl
    unfold delete_or_replace_pages
    rw [hl]
    simp [exitCode, outputProduced]
  · intro readPages
    unfold delete_or_replace_pages
    simp [exitCode, outputProduced]

/-- Evaluation of `read_error_behavior` at a concrete reader failure. -/
theorem read_error_behavior_witness :
    delete_or_replace_pages (fun b : MediaBox => b) true none ("in.pdf".toList)
      ("1".toList) false = .printedErrorAndReturned .errorReadingPdf :=
  ((read_error_behavior (fun b : MediaBox => b) ("in.pdf".toList) ("1".toList) false).1
    [0] (by decide)).1

end PdfCleaner
